import Mathlib

/-!
# Channel Access client, vxWorks dependent layer (`src/ca/vxWorks_depen.c`)

A shallow embedding of the vxWorks dependent part of the EPICS Channel Access
client library, and theorems about it.

Conventions of the embedding.

* `unsigned long` values are natural numbers reduced modulo `2 ^ w`, where `w`
  is the width of `unsigned long` on the target (32 on the vxWorks targets of
  this code).  `long` values (the fields of `struct timeval`) are integers,
  obtained from an `unsigned long` by two's complement conversion.
* Linked lists (`ELLLIST`) are Lean lists, first node first.
* Host primitives whose outcome the code tests are read from a `Host` record
  or passed as arguments.
* `assert` failures and loops that do not come to an end are explicit
  results (`Option.none`, `Except.error`).
-/

set_option autoImplicit false

namespace CA

/-! ## Machine integers -/

/-- The value of `~0UL` for an `unsigned long` of `w` bits. -/
def ULONG_MAX (w : Nat) : Nat := 2 ^ w - 1

/-- The largest value of a `long` of `w` bits. -/
def LONG_MAX (w : Nat) : Nat := 2 ^ (w - 1) - 1

/-- Conversion of an `unsigned long` to `long` (two's complement). -/
def toLong (w : Nat) (x : Nat) : Int :=
  if x % 2 ^ w ≤ LONG_MAX w then ((x % 2 ^ w : Nat) : Int)
  else ((x % 2 ^ w : Nat) : Int) - ((2 ^ w : Nat) : Int)

/-- Conversion of a `long` to `unsigned long` (reduction modulo `2 ^ w`). -/
def toULong (w : Nat) (x : Int) : Nat :=
  (x % ((2 ^ w : Nat) : Int)).toNat

/-- The constant `USEC_PER_SEC` of the source. -/
def USEC_PER_SEC : Nat := 1000000

/-- The C `struct timeval`; both fields have type `long`. -/
structure timeval where
  tv_sec : Int
  tv_usec : Int
deriving DecidableEq, Repr

/-! ## `cac_gettimeval` -/

/-- The function statics of `cac_gettimeval`.  `sem` is `none` before the
semaphore is created, afterwards `some full`. -/
structure ClockStatics where
  rate : Nat
  last : Nat
  offset : Nat
  sem : Option Bool
deriving DecidableEq, Repr

/-- Zero initialised statics, as at program start. -/
def ClockStatics.init : ClockStatics :=
  { rate := 0, last := 0, offset := 0, sem := none }

/-- One call of `cac_gettimeval`.  `sysClkRateGet` is what the host reports as
tick rate, `tickGet` the raw tick counter read by this call.  The result is
`none` when an `assert` fails or the `semTake(sem, WAIT_FOREVER)` finds the
semaphore empty (in a sequential run nobody would give it). -/
def cac_gettimeval (w : Nat) (sysClkRateGet tickGet : Nat) (st : ClockStatics) :
    Option (ClockStatics × timeval) :=
  -- lazy init
  let entered : Option ClockStatics :=
    if st.rate = 0 then
      let rate := sysClkRateGet % 2 ^ w
      -- semBCreate(SEM_Q_PRIORITY, SEM_EMPTY); assert(rate); assert(sem!=NULL)
      if rate = 0 then none else some { st with rate := rate, sem := some false }
    else
      -- semTake(sem, WAIT_FOREVER); assert(status==OK)
      match st.sem with
      | some true => some { st with sem := some false }
      | _ => none
  match entered with
  | none => none
  | some st1 =>
    let current := tickGet % 2 ^ w
    let offset :=
      if current < st1.last then (st1.offset + ULONG_MAX w / st1.rate) % 2 ^ w
      else st1.offset
    -- last = current; semGive(sem)
    let st2 : ClockStatics :=
      { rate := st1.rate, last := current, offset := offset, sem := some true }
    let sec := current / st1.rate
    let tv_sec := toLong w ((sec + offset) % 2 ^ w)
    -- (current - sec*rate) in unsigned arithmetic
    let rem := (current + (2 ^ w - (sec * st1.rate) % 2 ^ w)) % 2 ^ w
    let tv_usec := toLong w (((rem * USEC_PER_SEC) % 2 ^ w) / st1.rate)
    some (st2, { tv_sec := tv_sec, tv_usec := tv_usec })

/-- Successive calls of `cac_gettimeval`, one per raw tick reading, with the
time values in call order. -/
def clockRun (w rate : Nat) : ClockStatics → List Nat → Option (List timeval)
  | _, [] => some []
  | st, c :: cs =>
    match cac_gettimeval w rate c st with
    | none => none
    | some (st1, tv) =>
      match clockRun w rate st1 cs with
      | none => none
      | some tvs => some (tv :: tvs)

/-- The seconds of successive calls in exact integers fit a `long`: `last` and
`offset` are the exact values before the first reading of the list. -/
def secondsFit (w rate : Nat) : Nat → Nat → List Nat → Bool
  | _, _, [] => true
  | last, offset, c :: cs =>
    let offset1 := if c < last then offset + ULONG_MAX w / rate else offset
    decide (c / rate + offset1 ≤ LONG_MAX w) && secondsFit w rate c offset1 cs

/-- Lexicographic order on time values: seconds, then microseconds. -/
def timevalLE (a b : timeval) : Prop :=
  a.tv_sec < b.tv_sec ∨ (a.tv_sec = b.tv_sec ∧ a.tv_usec ≤ b.tv_usec)

instance (a b : timeval) : Decidable (timevalLE a b) := by
  unfold timevalLE; infer_instance

/-! ## Effects -/

/-- Status codes of the client library used by this file (`caerr.h`). -/
inductive CaStatus where
  | ECA_NORMAL
  | ECA_ALLOCMEM
  | ECA_INTERNAL
  | ECA_NOCACTX
  | ECA_NEEDSFP
  | ECA_PUTFAIL
  | ECA_PUTCBINPROG
deriving DecidableEq, Repr

/-- The `flags` argument of `cac_select_io`. -/
inductive SelectFlags where
  | CA_DO_SENDS
  | CA_DO_RECVS
deriving DecidableEq, Repr

/-- The argument block handed to a user callback (`struct event_handler_args`).
`dbr` is `none` for a NULL pointer. -/
structure event_handler_args where
  usr : Nat
  chid : Nat
  type : Nat
  count : Nat
  dbr : Option Nat
  status : CaStatus
deriving DecidableEq, Repr

/-- The vxWorks timeout `WAIT_FOREVER`. -/
def WAIT_FOREVER : Int := -1

/-- The fields of the database `PUTNOTIFY` block that this file reads. -/
structure PUTNOTIFY where
  usrPvt : Nat
  dbrType : Nat
  nRequest : Nat
  status : Int
deriving DecidableEq, Repr

/-- Calls into the host and into the rest of the library, in the order the
code makes them.  Semaphores, tasks, subscriptions and Contexts are named by
their handle. -/
inductive Event where
  | cac_select_io (timeout : timeval) (flags : SelectFlags)
  | semTake (sem : Nat) (timeout : Int)
  | semGive (sem : Nat)
  | semDelete (sem : Nat)
  | LOCKEVENTS
  | UNLOCKEVENTS
  | caUserCallback (fn : Nat) (args : event_handler_args)
  | logMsg
  | ca_printf
  | taskwdRemove (tid : Nat)
  | taskSuspend (tid : Nat)
  | taskDelete (tid : Nat)
  | db_cancel_event (monix : Nat)
  | dbNotifyCancel (dbPutNotify : PUTNOTIFY)
  | taskVarDelete (tid : Nat)
  | db_close_events (evuser : Nat)
  | ca_process_exit (pcas : Nat)
deriving DecidableEq, Repr

/-! ## `cac_mux_io`, `cac_block_for_io_completion`, `cac_block_for_sg_completion` -/

/-- The `do ... while(count>0)` loop of `cac_mux_io`.  The list holds the
counts that successive calls of `cac_select_io` report; the loop reads one per
pass and the rest is returned.  It is `none` when the host reports no further
count. -/
def cac_mux_io (timeout : timeval) : List Int → Option (List Event × List Int)
  | [] => none
  | count :: rest =>
    let ev := Event.cac_select_io timeout SelectFlags.CA_DO_SENDS
    -- timeout.tv_usec = 0; timeout.tv_sec = 0;
    if count > 0 then
      match cac_mux_io { tv_sec := 0, tv_usec := 0 } rest with
      | none => none
      | some (evs, rest1) => some (ev :: evs, rest1)
    else some ([ev], rest)

/-- The function `cac_block_for_io_completion`; `io_done_sem` is the handle
behind the macro of that name, `rate` the value of `sysClkRateGet()` as
`unsigned long`, `LOCALTICKS` the value of the macro of that name. -/
def cac_block_for_io_completion (w rate LOCALTICKS io_done_sem : Nat)
    (pTV : timeval) (counts : List Int) : Option (List Event × List Int) :=
  -- itimeout.tv_usec = 0; itimeout.tv_sec = 0; cac_mux_io(&itimeout);
  match cac_mux_io { tv_sec := 0, tv_usec := 0 } counts with
  | none => none
  | some (evs, rest) =>
    -- ticks = pTV->tv_sec*rate + (pTV->tv_usec*rate)/USEC_PER_SEC;
    let ticks :=
      ((toULong w pTV.tv_sec * rate) % 2 ^ w
        + ((toULong w pTV.tv_usec * rate) % 2 ^ w) / USEC_PER_SEC) % 2 ^ w
    -- ticks = min(LOCALTICKS, ticks);
    let ticks1 := if LOCALTICKS < ticks then LOCALTICKS else ticks
    some (evs ++ [Event.semTake io_done_sem ticks1], rest)

/-- A synchronous group (`CASG`), of which this file uses the semaphore. -/
structure CASG where
  sem : Nat
deriving DecidableEq, Repr

/-- The function `cac_block_for_sg_completion`. -/
def cac_block_for_sg_completion (w rate LOCALTICKS : Nat) (pcasg : CASG)
    (pTV : timeval) (counts : List Int) : Option (List Event × List Int) :=
  match cac_mux_io { tv_sec := 0, tv_usec := 0 } counts with
  | none => none
  | some (evs, rest) =>
    let ticks :=
      ((toULong w pTV.tv_sec * rate) % 2 ^ w
        + ((toULong w pTV.tv_usec * rate) % 2 ^ w) / USEC_PER_SEC) % 2 ^ w
    let ticks1 := if LOCALTICKS < ticks then LOCALTICKS else ticks
    some (evs ++ [Event.semTake pcasg.sem ticks1], rest)

/-- The wait in ticks as the specification words it, in exact integers:
`min(LOCALTICKS, sec*rate + floor(usec*rate/1000000))`. -/
def specWaitTicks (rate LOCALTICKS : Nat) (sec usec : Nat) : Nat :=
  min LOCALTICKS (sec * rate + usec * rate / 1000000)

/-! ## Put notify records and `ca_extra_event_labor` -/

/-- The client put notify block (`CACLIENTPUTNOTIFY`).  The user callback is
named by a number. -/
structure CACLIENTPUTNOTIFY where
  dbPutNotify : PUTNOTIFY
  caUserCallback : Nat
  caUserArg : Nat
  busy : Bool
deriving DecidableEq, Repr

/-- A record of the list `ca_taskVarList` (`TVIU`): a unit that has the task
variable `ca_static` pointing to the Context. -/
structure TVIU where
  tid : Nat
deriving DecidableEq, Repr

/-- A local channel (`struct channel_in_use`): its queue of event
subscriptions and its put notify block, `none` for a NULL `ppn`. -/
structure channel_in_use where
  eventq : List Nat
  ppn : Option CACLIENTPUTNOTIFY
deriving DecidableEq, Repr

/-- The Context (`struct ca_static`), with the members this file uses. -/
structure ca_static where
  ca_tid : Nat
  recv_tid : Nat
  ca_evuser : Nat
  ca_client_lock : Nat
  ca_event_lock : Nat
  ca_putNotifyLock : Nat
  ca_io_done_sem : Nat
  ca_blockSem : Nat
  ca_local_chidlist : List channel_in_use
  ca_dbfree_ev_list : List Nat
  ca_lcl_buff_list : List Nat
  ca_taskVarList : List TVIU
  ca_putNotifyQue : List CACLIENTPUTNOTIFY
deriving DecidableEq, Repr

/-- Modelled from the spec: `ellGet` of the list library, which is not in this
file; it removes the first (oldest) node of a list and returns it, NULL for an
empty list. -/
def ellGet {α : Type} : List α → Option α × List α
  | [] => (none, [])
  | a :: rest => (some a, rest)

/-- Modelled from the spec: `ellAdd` of the list library; it adds a node at the
end of a list. -/
def ellAdd {α : Type} (l : List α) (a : α) : List α := l ++ [a]

/-- The status that `ca_extra_event_labor` puts into `args.status`, from the
`status` of the database put notify block.  `S_db_Blocked` is the database
status code of that name. -/
def putNotifyStatus (S_db_Blocked : Int) (status : Int) : CaStatus :=
  if status ≠ 0 then
    if status = S_db_Blocked then CaStatus.ECA_PUTCBINPROG
    else CaStatus.ECA_PUTFAIL
  else CaStatus.ECA_NORMAL

/-- The arguments `ca_extra_event_labor` sets up for the callback of a
dequeued block. -/
def putNotifyArgs (S_db_Blocked : Int) (ppnb : CACLIENTPUTNOTIFY) : event_handler_args :=
  { usr := ppnb.caUserArg
    chid := ppnb.dbPutNotify.usrPvt
    type := ppnb.dbPutNotify.dbrType
    count := ppnb.dbPutNotify.nRequest
    dbr := none
    status := putNotifyStatus S_db_Blocked ppnb.dbPutNotify.status }

/-- What one run of the dispatcher leaves: the put notify queue, the blocks it
took off the queue (in that order, as they are after the run) and the effect
trace. -/
structure LaborResult where
  ca_putNotifyQue : List CACLIENTPUTNOTIFY
  dispatched : List CACLIENTPUTNOTIFY
  trace : List Event
deriving DecidableEq, Repr

/-- The `while(TRUE)` loop of `ca_extra_event_labor`, at most `fuel` passes;
`none` when the passes are used up before the loop breaks. -/
def laborLoop (S_db_Blocked : Int) (ca_putNotifyLock : Nat) :
    Nat → List CACLIENTPUTNOTIFY → Option LaborResult
  | 0, _ => none
  | fuel + 1, que =>
    -- semTake(pcas->ca_putNotifyLock, WAIT_FOREVER); ellGet; semGive
    let locked := [Event.semTake ca_putNotifyLock WAIT_FOREVER, Event.semGive ca_putNotifyLock]
    match ellGet que with
    | (none, que1) =>
      some { ca_putNotifyQue := que1, dispatched := [], trace := locked }
    | (some ppnb, que1) =>
      let args := putNotifyArgs S_db_Blocked ppnb
      let call := [Event.LOCKEVENTS, Event.caUserCallback ppnb.caUserCallback args,
        Event.UNLOCKEVENTS]
      match laborLoop S_db_Blocked ca_putNotifyLock fuel que1 with
      | none => none
      | some r =>
        -- ppnb->busy = FALSE
        some { ca_putNotifyQue := r.ca_putNotifyQue
               dispatched := { ppnb with busy := false } :: r.dispatched
               trace := locked ++ call ++ r.trace }

/-- The function `ca_extra_event_labor` on the Context `pcas` (its argument
`pArg`).  `semGiveOK` tells whether the host reports OK for the final
`semGive(pcas->ca_blockSem)`.  The result holds the Context as it is
afterwards, the blocks taken off the queue and the effect trace. -/
def ca_extra_event_labor (S_db_Blocked : Int) (semGiveOK : Bool) (fuel : Nat)
    (pcas : ca_static) : Option (ca_static × LaborResult) :=
  match laborLoop S_db_Blocked pcas.ca_putNotifyLock fuel pcas.ca_putNotifyQue with
  | none => none
  | some r =>
    let wake := Event.semGive pcas.ca_blockSem :: (if semGiveOK then [] else [Event.logMsg])
    some ({ pcas with ca_putNotifyQue := r.ca_putNotifyQue },
      { r with trace := r.trace ++ wake })

/-! ## Contexts and the task variable `ca_static` -/

/-- How a run ends without a result: a failed `assert`, a pointer that does
not point to a Context, or a loop that used up its passes. -/
inductive Fault where
  | assertion
  | badPointer
  | fuel
deriving DecidableEq, Repr

/-- Outcomes of the host primitives that the code tests.  `true` stands for
OK (for `calloc`: storage was returned).  `taskOptionsGet tid` is `none` for
ERROR, otherwise whether `options & VX_FP_TASK` is set. -/
structure Host where
  taskOptionsGet : Nat → Option Bool
  calloc : Bool
  taskVarAdd : Bool
  taskVarInit : Bool
  taskDeleteHookAdd : Bool
  taskIdVerify : Nat → Bool
  db_cancel_event : Nat → Bool
  db_close_events : Nat → Bool
  semDelete : Nat → Bool

/-- The process: the task variable table of `ca_static` (unit id and the
Context address it holds, newest first), the value of `ca_static` seen by
units without the task variable (0 is NULL), the Contexts by address, the
static `ca_installed` of `cac_add_task_variable` and the number of delete
hooks registered by it. -/
structure World where
  taskVars : List (Nat × Nat)
  global_ca_static : Nat
  contexts : List (Nat × ca_static)
  ca_installed : Bool
  deleteHooks : Nat
deriving DecidableEq, Repr

/-- Modelled from the spec: the host primitive `taskVarGet`, the unit to
Context map read for one unit; `none` is ERROR (the unit has no mapping). -/
def taskVarGet (tv : List (Nat × Nat)) (tid : Nat) : Option Nat :=
  match tv with
  | [] => none
  | (t, v) :: rest => if t = tid then some v else taskVarGet rest tid

/-- Modelled from the spec: the host primitive `taskVarDelete`, which removes
the mapping of a unit; `none` is ERROR (the unit has no mapping). -/
def taskVarDelete (tv : List (Nat × Nat)) (tid : Nat) : Option (List (Nat × Nat)) :=
  match tv with
  | [] => none
  | (t, v) :: rest =>
    if t = tid then some rest
    else
      match taskVarDelete rest tid with
      | none => none
      | some rest1 => some ((t, v) :: rest1)

/-- The Context at an address, `none` when there is none. -/
def getContext (cs : List (Nat × ca_static)) (addr : Nat) : Option ca_static :=
  match cs with
  | [] => none
  | (a, c) :: rest => if a = addr then some c else getContext rest addr

/-- Store into the Context at an address. -/
def setContext (cs : List (Nat × ca_static)) (addr : Nat) (c : ca_static) :
    List (Nat × ca_static) :=
  match cs with
  | [] => []
  | (a, c0) :: rest =>
    if a = addr then (a, c) :: rest else (a, c0) :: setContext rest addr c

/-- The function `ca_check_for_fp` for the calling unit `self`. -/
def ca_check_for_fp (h : Host) (self : Nat) : Except Fault CaStatus :=
  -- assert(taskOptionsGet(taskIdSelf(), &options) == OK)
  match h.taskOptionsGet self with
  | none => Except.error Fault.assertion
  | some fp => if !fp then Except.ok CaStatus.ECA_NEEDSFP else Except.ok CaStatus.ECA_NORMAL

/-- The function `cac_add_task_variable` called by unit `self` with `ca_temp`
the address of its Context.  The code compares what `taskVarGet` returns with
OK, which is 0: the test holds when the unit has a task variable whose value
read is 0. -/
def cac_add_task_variable (h : Host) (self : Nat) (w : World) (ca_temp : Nat) :
    Except Fault (CaStatus × World) :=
  match ca_check_for_fp h self with
  | Except.error e => Except.error e
  | Except.ok status =>
    if status ≠ CaStatus.ECA_NORMAL then Except.ok (status, w)
    -- status = taskVarGet(VXTHISTASKID, ...); if(status == OK)
    else if taskVarGet w.taskVars self = some 0 then Except.ok (CaStatus.ECA_INTERNAL, w)
    else
      -- if (vxTas(&ca_installed))
      let first := !w.ca_installed
      let w1 : World := { w with ca_installed := true }
      if first && !h.taskVarInit then Except.ok (CaStatus.ECA_INTERNAL, w1)
      else if first && !h.taskDeleteHookAdd then Except.ok (CaStatus.ECA_INTERNAL, w1)
      else
        let w2 : World := if first then { w1 with deleteHooks := w1.deleteHooks + 1 } else w1
        -- ptviu = calloc(1, sizeof(*ptviu))
        if !h.calloc then Except.ok (CaStatus.ECA_INTERNAL, w2)
        else
          match getContext w2.contexts ca_temp with
          | none => Except.error Fault.badPointer
          | some pcas =>
            -- ptviu->tid = taskIdSelf(); ellAdd(&ca_temp->ca_taskVarList, &ptviu->node)
            let pcas1 : ca_static :=
              { pcas with ca_taskVarList := ellAdd pcas.ca_taskVarList { tid := self } }
            let w3 : World := { w2 with contexts := setContext w2.contexts ca_temp pcas1 }
            -- status = taskVarAdd(VXTHISTASKID, ...); on failure free(ptviu)
            if !h.taskVarAdd then Except.ok (CaStatus.ECA_INTERNAL, w3)
            else
              -- ca_static = ca_temp
              Except.ok (CaStatus.ECA_NORMAL, { w3 with taskVars := (self, ca_temp) :: w3.taskVars })

/-- The function `ca_import` called by unit `self`. -/
def ca_import (h : Host) (self : Nat) (w : World) (tid : Nat) :
    Except Fault (CaStatus × World) :=
  match ca_check_for_fp h self with
  | Except.error e => Except.error e
  | Except.ok status =>
    if status ≠ CaStatus.ECA_NORMAL then Except.ok (status, w)
    else
      -- pcas = taskVarGet(taskIdSelf(), ...); if (pcas != ERROR) return ECA_NORMAL
      match taskVarGet w.taskVars self with
      | some _ => Except.ok (CaStatus.ECA_NORMAL, w)
      | none =>
        if !h.calloc then Except.ok (CaStatus.ECA_ALLOCMEM, w)
        else
          match taskVarGet w.taskVars tid with
          | none => Except.ok (CaStatus.ECA_NOCACTX, w)
          | some pcas =>
            -- ca_static = NULL (the unit has no task variable yet)
            let w1 : World := { w with global_ca_static := 0 }
            if !h.taskVarAdd then Except.ok (CaStatus.ECA_ALLOCMEM, w1)
            else
              -- taskVarAdd(VXTHISTASKID, ...); ca_static = pcas
              let w2 : World := { w1 with taskVars := (self, pcas) :: w1.taskVars }
              -- LOCK; ellAdd(&ca_static->ca_taskVarList, &ptviu->node); UNLOCK
              match getContext w2.contexts pcas with
              | none => Except.error Fault.badPointer
              | some c =>
                let c1 : ca_static :=
                  { c with ca_taskVarList := ellAdd c.ca_taskVarList { tid := self } }
                Except.ok (CaStatus.ECA_NORMAL,
                  { w2 with contexts := setContext w2.contexts pcas c1 })

/-- The `while(ptviu)` loop of `ca_import_cancel`, at most `fuel` passes.
`ptviu` is the position of the node in the list, `none` for NULL.  The body
tests the node and does nothing else. -/
def importCancelLoop (tid : Nat) (list : List TVIU) : Nat → Option Nat → Except Fault (Option Nat)
  | 0, _ => Except.error Fault.fuel
  | _ + 1, none => Except.ok none
  | fuel + 1, some i =>
    match list[i]? with
    | none => Except.error Fault.badPointer
    | some node =>
      if node.tid = tid then Except.ok (some i)
      else importCancelLoop tid list fuel (some i)

/-- The function `ca_import_cancel` called by unit `self`; its loop makes at
most `fuel` passes. -/
def ca_import_cancel (self : Nat) (fuel : Nat) (w : World) (tid : Nat) :
    Except Fault (CaStatus × World) :=
  -- the value of ca_static for the calling unit
  let cur :=
    match taskVarGet w.taskVars self with
    | some p => p
    | none => w.global_ca_static
  match getContext w.contexts cur with
  | none => Except.error Fault.badPointer
  | some c =>
    -- ptviu = (TVIU *) ca_static->ca_taskVarList.node.next
    let ptviu : Option Nat :=
      match c.ca_taskVarList with
      | [] => none
      | _ :: _ => some 0
    match importCancelLoop tid c.ca_taskVarList fuel ptviu with
    | Except.error e => Except.error e
    | Except.ok none => Except.ok (CaStatus.ECA_NOCACTX, w)
    | Except.ok (some i) =>
      -- ellDelete(&ca_static->ca_taskVarList, &ptviu->node)
      let c1 : ca_static := { c with ca_taskVarList := c.ca_taskVarList.eraseIdx i }
      let w1 : World := { w with contexts := setContext w.contexts cur c1 }
      -- status = taskVarDelete(tid, ...); assert (status == OK)
      match taskVarDelete w1.taskVars tid with
      | none => Except.error Fault.assertion
      | some tv => Except.ok (CaStatus.ECA_NORMAL, { w1 with taskVars := tv })

/-! ## `cac_os_depen_exit` and the task delete hook -/

/-- The loop `while (monix = (evid) ellGet(&chix->eventq))` of
`cac_os_depen_exit`: each subscription taken off the queue is cancelled with
`db_cancel_event`, whose status is asserted. -/
def cancelEventq (h : Host) : List Nat → Except Fault (List Event)
  | [] => Except.ok []
  | monix :: rest =>
    if h.db_cancel_event monix then
      match cancelEventq h rest with
      | Except.error e => Except.error e
      | Except.ok evs => Except.ok (Event.db_cancel_event monix :: evs)
    else Except.error Fault.assertion

/-- The part of the channel loop of `cac_os_depen_exit` after the event
queue: `if(chix->ppn)`, and `dbNotifyCancel` when the block is busy. -/
def cancelPutNotify (chix : channel_in_use) : List Event :=
  match chix.ppn with
  | none => []
  | some ppn => if ppn.busy then [Event.dbNotifyCancel ppn.dbPutNotify] else []

/-- The loop of `cac_os_depen_exit` over `ca_local_chidlist`. -/
def cancelChannels (h : Host) : List channel_in_use → Except Fault (List Event)
  | [] => Except.ok []
  | chix :: rest =>
    match cancelEventq h chix.eventq with
    | Except.error e => Except.error e
    | Except.ok evs =>
      match cancelChannels h rest with
      | Except.error e => Except.error e
      | Except.ok tr => Except.ok (evs ++ cancelPutNotify chix ++ tr)

/-- The loop `while(ptviu = (TVIU *)ellGet(&pcas->ca_taskVarList))` of
`cac_os_depen_exit`: `taskVarDelete` for each record, with a message when the
host reports an error. -/
def cancelTaskVars : List (Nat × Nat) → List TVIU → List (Nat × Nat) × List Event
  | tv, [] => (tv, [])
  | tv, ptviu :: rest =>
    match taskVarDelete tv ptviu.tid with
    | some tv1 =>
      let r := cancelTaskVars tv1 rest
      (r.1, Event.taskVarDelete ptviu.tid :: r.2)
    | none =>
      let r := cancelTaskVars tv rest
      (r.1, Event.taskVarDelete ptviu.tid :: Event.ca_printf :: r.2)

/-- The function `cac_os_depen_exit` on the Context `pcas` for the terminating
unit `tid`; `tv` is the task variable table.  It returns the table and the
Context as they are afterwards, and the effect trace. -/
def cac_os_depen_exit (h : Host) (tv : List (Nat × Nat)) (pcas : ca_static) (tid : Nat) :
    Except Fault (List (Nat × Nat) × ca_static × List Event) :=
  -- stop the socket recv task
  let stop : List Event :=
    if h.taskIdVerify pcas.recv_tid then
      Event.taskwdRemove pcas.recv_tid ::
        (if pcas.recv_tid ≠ tid then [Event.taskSuspend pcas.recv_tid] else [])
    else []
  -- cancel all local events (and put call backs)
  match cancelChannels h pcas.ca_local_chidlist with
  | Except.error e => Except.error e
  | Except.ok cancels =>
    -- cancel task vars for other tasks
    let r := cancelTaskVars tv pcas.ca_taskVarList
    let del : List Event :=
      if h.taskIdVerify pcas.recv_tid then
        (if pcas.recv_tid ≠ tid then [Event.taskDelete pcas.recv_tid] else [])
      else []
    -- status = db_close_events(pcas->ca_evuser); assert(status == OK)
    if h.db_close_events pcas.ca_evuser then
      -- ellFree of ca_lcl_buff_list, ca_local_chidlist, ca_dbfree_ev_list
      let pcas1 : ca_static :=
        { pcas with
          ca_taskVarList := []
          ca_lcl_buff_list := []
          ca_local_chidlist := []
          ca_dbfree_ev_list := [] }
      Except.ok (r.1, pcas1,
        stop ++ cancels ++ r.2 ++ del ++ [Event.db_close_events pcas.ca_evuser])
    else Except.error Fault.assertion

/-- The five `assert(semDelete(...)==OK)` at the end of `ca_task_exit_tcb`. -/
def deleteSems (h : Host) : List Nat → Except Fault (List Event)
  | [] => Except.ok []
  | sem :: rest =>
    if h.semDelete sem then
      match deleteSems h rest with
      | Except.error e => Except.error e
      | Except.ok evs => Except.ok (Event.semDelete sem :: evs)
    else Except.error Fault.assertion

/-- The task delete hook `ca_task_exit_tcb` for the terminating unit `ptcb`.
`ca_process_exit` is outside this file and appears as an effect only. -/
def ca_task_exit_tcb (h : Host) (w : World) (ptcb : Nat) :
    Except Fault (World × List Event) :=
  -- ca_temp = taskVarGet((int)ptcb, ...); if (ca_temp == ERROR) return
  match taskVarGet w.taskVars ptcb with
  | none => Except.ok (w, [])
  | some ca_temp =>
    match getContext w.contexts ca_temp with
    | none => Except.error Fault.badPointer
    | some pcas =>
      match cac_os_depen_exit h w.taskVars pcas ptcb with
      | Except.error e => Except.error e
      | Except.ok (tv, pcas1, tr) =>
        match deleteSems h [pcas1.ca_client_lock, pcas1.ca_event_lock,
            pcas1.ca_putNotifyLock, pcas1.ca_io_done_sem, pcas1.ca_blockSem] with
        | Except.error e => Except.error e
        | Except.ok dels =>
          Except.ok
            ({ w with taskVars := tv, contexts := setContext w.contexts ca_temp pcas1 },
              tr ++ [Event.ca_process_exit ca_temp] ++ dels)

/-! ## Sample data -/

/-- A host on which every primitive reports OK and every unit has the
floating point option. -/
def okHost : Host :=
  { taskOptionsGet := fun _ => some true
    calloc := true
    taskVarAdd := true
    taskVarInit := true
    taskDeleteHookAdd := true
    taskIdVerify := fun _ => true
    db_cancel_event := fun _ => true
    db_close_events := fun _ => true
    semDelete := fun _ => true }

/-- A Context owned by unit 1 as `cac_os_depen_init` leaves it, with one local
channel that has two subscriptions and a busy put. -/
def sampleContext : ca_static :=
  { ca_tid := 1
    recv_tid := 9
    ca_evuser := 50
    ca_client_lock := 11
    ca_event_lock := 12
    ca_putNotifyLock := 13
    ca_io_done_sem := 14
    ca_blockSem := 15
    ca_local_chidlist :=
      [{ eventq := [71, 72]
         ppn := some
           { dbPutNotify := { usrPvt := 5, dbrType := 6, nRequest := 1, status := 0 }
             caUserCallback := 3, caUserArg := 4, busy := true } }]
    ca_dbfree_ev_list := []
    ca_lcl_buff_list := []
    ca_taskVarList := []
    ca_putNotifyQue := [] }

/-- A process with the sample Context at address 100 and no unit attached. -/
def sampleWorld : World :=
  { taskVars := []
    global_ca_static := 0
    contexts := [(100, sampleContext)]
    ca_installed := false
    deleteHooks := 0 }

/-- The host status of a callback effect, `none` for any other effect. -/
def callbackStatus : Event → Option CaStatus
  | Event.caUserCallback _ args => some args.status
  | _ => none

/-- The effects of the dispatcher that the user and a waiting unit observe:
user callbacks and gives of the semaphore `ca_blockSem`. -/
def observable (ca_blockSem : Nat) : Event → Bool
  | Event.caUserCallback _ _ => true
  | Event.semGive sem => decide (sem = ca_blockSem)
  | _ => false

/-- The callback effect of a put notify block. -/
def callbackOf (S_db_Blocked : Int) (ppnb : CACLIENTPUTNOTIFY) : Event :=
  Event.caUserCallback ppnb.caUserCallback (putNotifyArgs S_db_Blocked ppnb)

/-- The effects of one pass of the dispatcher loop that finds a block. -/
def passOf (S_db_Blocked : Int) (ca_putNotifyLock : Nat) (ppnb : CACLIENTPUTNOTIFY) :
    List Event :=
  [Event.semTake ca_putNotifyLock WAIT_FOREVER, Event.semGive ca_putNotifyLock,
    Event.LOCKEVENTS, callbackOf S_db_Blocked ppnb, Event.UNLOCKEVENTS]

/-- A put notify queue of three entries for status 32833575 as `S_db_Blocked`:
the first blocked in the database, the second failed, the third done. -/
def sampleQue : List CACLIENTPUTNOTIFY :=
  [{ dbPutNotify := { usrPvt := 5, dbrType := 6, nRequest := 1, status := 32833575 }
     caUserCallback := 3, caUserArg := 4, busy := true },
   { dbPutNotify := { usrPvt := 8, dbrType := 6, nRequest := 2, status := 2 }
     caUserCallback := 3, caUserArg := 9, busy := true },
   { dbPutNotify := { usrPvt := 8, dbrType := 6, nRequest := 2, status := 0 }
     caUserCallback := 7, caUserArg := 9, busy := true }]

/-- The sample Context with the sample queue as put notify queue. -/
def queuedContext : ca_static := { sampleContext with ca_putNotifyQue := sampleQue }

/-- The sample process after the owning unit 1 has attached its Context with
`cac_add_task_variable`. -/
def ownerWorld : World :=
  { taskVars := [(1, 100)]
    global_ca_static := 0
    contexts := [(100, { sampleContext with ca_taskVarList := [{ tid := 1 }] })]
    ca_installed := true
    deleteHooks := 1 }

/-- The sample process after unit 2 has attached itself to the Context of
unit 1 with `ca_import`. -/
def derivedWorld : World :=
  { taskVars := [(2, 100), (1, 100)]
    global_ca_static := 0
    contexts := [(100, { sampleContext with ca_taskVarList := [{ tid := 1 }, { tid := 2 }] })]
    ca_installed := true
    deleteHooks := 1 }

/-- The sample process after the Context at address 100 was torn down. -/
def tornDownWorld : World :=
  { taskVars := []
    global_ca_static := 0
    contexts := [(100, { sampleContext with ca_local_chidlist := [] })]
    ca_installed := true
    deleteHooks := 1 }

/-- A host that reports OK except for `taskVarAdd`. -/
def noTaskVarHost : Host := { okHost with taskVarAdd := false }

/-- The kinds of teardown effects that the ordering of `cac_os_depen_exit` is
about. -/
inductive EffectKind where
  | cancel
  | unregister
  | close
  | other
deriving DecidableEq, Repr

/-- The kind of an effect: `db_cancel_event` and `dbNotifyCancel` cancel,
`taskVarDelete` unregisters, `db_close_events` closes. -/
def effectKind : Event → EffectKind
  | Event.db_cancel_event _ => EffectKind.cancel
  | Event.dbNotifyCancel _ => EffectKind.cancel
  | Event.taskVarDelete _ => EffectKind.unregister
  | Event.db_close_events _ => EffectKind.close
  | _ => EffectKind.other

/-- The subscription that an effect cancels. -/
def cancelledEvent : Event → Option Nat
  | Event.db_cancel_event monix => some monix
  | _ => none

/-- The put notify block that an effect cancels. -/
def cancelledPut : Event → Option PUTNOTIFY
  | Event.dbNotifyCancel pn => some pn
  | _ => none

/-- The unit whose task variable an effect deletes. -/
def deletedTaskVar : Event → Option Nat
  | Event.taskVarDelete tid => some tid
  | _ => none

/-- The database block of the pending put of a channel when it is busy. -/
def busyPut (chix : channel_in_use) : Option PUTNOTIFY :=
  match chix.ppn with
  | none => none
  | some ppn => if ppn.busy then some ppn.dbPutNotify else none

/-- The effect of a poll for sends with a zero timeout. -/
def zeroPoll : Event :=
  Event.cac_select_io { tv_sec := 0, tv_usec := 0 } SelectFlags.CA_DO_SENDS

/-- The number of leading counts greater than 0 in what the polls report. -/
def busyPolls (counts : List Int) : Nat :=
  (counts.takeWhile (fun c => decide (0 < c))).length

/-- The statics of `cac_gettimeval` are ready for a call at tick rate `rate`:
either untouched since program start, or initialised with that rate and the
semaphore full; the last reading is an `unsigned long`. -/
def ClockReady (w rate : Nat) (st : ClockStatics) : Prop :=
  st.last < 2 ^ w ∧ (st.rate = 0 ∨ (st.rate = rate ∧ st.sem = some true))

/-- The time value that corresponds to the statics: the exact seconds and
microseconds of the last reading. -/
def lastTime (rate : Nat) (st : ClockStatics) : timeval :=
  { tv_sec := ((st.last / rate + st.offset : Nat) : Int)
    tv_usec := ((st.last % rate * USEC_PER_SEC / rate : Nat) : Int) }

/-- Two successive calls, each given as raw reading and returned time value,
are in order: the seconds do not decrease, and when the raw reading did not
decrease the time value does not decrease in lexicographic order. -/
def StepOrdered (a b : Nat × timeval) : Prop :=
  a.2.tv_sec ≤ b.2.tv_sec ∧ (a.1 ≤ b.1 → timevalLE a.2 b.2)

/-! # Theorems -/

/-! ## The dispatcher -/

theorem laborLoop_eq (B : Int) (lock : Nat) (que : List CACLIENTPUTNOTIFY) :
    ∀ fuel, que.length < fuel →
      laborLoop B lock fuel que = some
        { ca_putNotifyQue := []
          dispatched := que.map (fun p => { p with busy := false })
          trace := que.flatMap (passOf B lock) ++
            [Event.semTake lock WAIT_FOREVER, Event.semGive lock] } := by
  induction que with
  | nil =>
    intro fuel hf
    cases fuel with
    | zero => simp at hf
    | succ n => simp [laborLoop, ellGet]
  | cons p rest ih =>
    intro fuel hf
    cases fuel with
    | zero => simp at hf
    | succ n =>
      have hn : rest.length < n := by simpa using hf
      simp [laborLoop, ellGet, ih n hn, passOf, callbackOf]

theorem filter_observable_pass (B : Int) (lock bs : Nat) (hne : lock ≠ bs)
    (que : List CACLIENTPUTNOTIFY) :
    (que.flatMap (passOf B lock)).filter (observable bs) = que.map (callbackOf B) := by
  induction que with
  | nil => rfl
  | cons p rest ih =>
    simp only [List.flatMap_cons, List.filter_append, ih, List.map_cons]
    simp [passOf, callbackOf, observable, hne]

theorem filterMap_status_pass (B : Int) (lock : Nat) (que : List CACLIENTPUTNOTIFY) :
    (que.flatMap (passOf B lock)).filterMap callbackStatus
      = que.map (fun p => putNotifyStatus B p.dbPutNotify.status) := by
  induction que with
  | nil => rfl
  | cons p rest ih =>
    simp only [List.flatMap_cons, List.filterMap_append, ih, List.map_cons]
    simp [passOf, callbackOf, callbackStatus, putNotifyArgs]

/-- C1: on a Context whose put notify queue nobody else touches, one run of
`ca_extra_event_labor` with more passes than the queue has entries comes to an
end; its trace is, for each entry in queue order, the lock pair around the
dequeue and the locked user callback, then the lock pair of the pass that
finds the queue empty, then one give of `ca_blockSem` (and a log message when
the host reports that give as failed); seen through the callbacks and the
gives of `ca_blockSem` it is exactly the callbacks of the entries in queue
order followed by one give; the queue is empty afterwards, nothing else of the
Context has changed, and each dispatched entry is the queued one with `busy`
FALSE. -/
theorem ca_extra_event_labor_fifo (B : Int) (ok : Bool) (pcas : ca_static) (fuel : Nat)
    (hfuel : pcas.ca_putNotifyQue.length < fuel)
    (hsem : pcas.ca_putNotifyLock ≠ pcas.ca_blockSem) :
    ∃ r, ca_extra_event_labor B ok fuel pcas
        = some ({ pcas with ca_putNotifyQue := [] }, r) ∧
      r.trace = pcas.ca_putNotifyQue.flatMap (passOf B pcas.ca_putNotifyLock) ++
        [Event.semTake pcas.ca_putNotifyLock WAIT_FOREVER,
          Event.semGive pcas.ca_putNotifyLock] ++
        Event.semGive pcas.ca_blockSem :: (if ok then [] else [Event.logMsg]) ∧
      r.trace.filter (observable pcas.ca_blockSem)
        = pcas.ca_putNotifyQue.map (callbackOf B) ++ [Event.semGive pcas.ca_blockSem] ∧
      r.ca_putNotifyQue = [] ∧
      r.dispatched = pcas.ca_putNotifyQue.map (fun p => { p with busy := false }) ∧
      ∀ p ∈ r.dispatched, p.busy = false := by
  refine ⟨_, by simp only [ca_extra_event_labor,
      laborLoop_eq B pcas.ca_putNotifyLock pcas.ca_putNotifyQue fuel hfuel]; rfl,
    rfl, ?_, rfl, rfl, ?_⟩
  · simp only [List.append_assoc, List.filter_append,
      filter_observable_pass B _ _ hsem]
    cases ok <;> simp [observable, hsem]
  · intro p hp
    simp only [List.mem_map] at hp
    obtain ⟨q, _, rfl⟩ := hp
    rfl

/-- Witness of C1: the sample Context with a queue of three entries. -/
theorem ca_extra_event_labor_fifo_witness :
    ∃ r, ca_extra_event_labor 32833575 true 4 queuedContext
        = some ({ queuedContext with ca_putNotifyQue := [] }, r) ∧
      r.trace = queuedContext.ca_putNotifyQue.flatMap
          (passOf 32833575 queuedContext.ca_putNotifyLock) ++
        [Event.semTake queuedContext.ca_putNotifyLock WAIT_FOREVER,
          Event.semGive queuedContext.ca_putNotifyLock] ++
        Event.semGive queuedContext.ca_blockSem :: (if true then [] else [Event.logMsg]) ∧
      r.trace.filter (observable queuedContext.ca_blockSem)
        = queuedContext.ca_putNotifyQue.map (callbackOf 32833575)
          ++ [Event.semGive queuedContext.ca_blockSem] ∧
      r.ca_putNotifyQue = [] ∧
      r.dispatched = queuedContext.ca_putNotifyQue.map (fun p => { p with busy := false }) ∧
      ∀ p ∈ r.dispatched, p.busy = false :=
  ca_extra_event_labor_fifo 32833575 true queuedContext 4 (by decide) (by decide)

/-- C9: in a run of `ca_extra_event_labor` the status handed to the callback
of each dequeued entry is a function of the entry's database status alone:
0 gives ECA_NORMAL, `S_db_Blocked` gives ECA_PUTCBINPROG, any other status
gives ECA_PUTFAIL, and no other value occurs. -/
theorem ca_extra_event_labor_status (B : Int) (hB : B ≠ 0) (ok : Bool) (pcas : ca_static)
    (fuel : Nat) (hfuel : pcas.ca_putNotifyQue.length < fuel) :
    (∃ r, ca_extra_event_labor B ok fuel pcas = some r ∧
      r.2.trace.filterMap callbackStatus
        = pcas.ca_putNotifyQue.map (fun p => putNotifyStatus B p.dbPutNotify.status)) ∧
    putNotifyStatus B 0 = CaStatus.ECA_NORMAL ∧
    putNotifyStatus B B = CaStatus.ECA_PUTCBINPROG ∧
    (∀ status, status ≠ 0 → status ≠ B → putNotifyStatus B status = CaStatus.ECA_PUTFAIL) ∧
    (∀ status, putNotifyStatus B status = CaStatus.ECA_NORMAL ∨
      putNotifyStatus B status = CaStatus.ECA_PUTCBINPROG ∨
      putNotifyStatus B status = CaStatus.ECA_PUTFAIL) := by
  refine ⟨⟨_, by simp only [ca_extra_event_labor,
      laborLoop_eq B pcas.ca_putNotifyLock pcas.ca_putNotifyQue fuel hfuel]; rfl,
    ?_⟩, ?_, ?_, ?_, ?_⟩
  · simp only [List.append_assoc, List.filterMap_append, filterMap_status_pass]
    cases ok <;> simp [callbackStatus]
  · simp [putNotifyStatus]
  · simp [putNotifyStatus, hB]
  · intro status h0 hb
    simp [putNotifyStatus, h0, hb]
  · intro status
    unfold putNotifyStatus
    split_ifs <;> simp

/-- Witness of C9: the sample Context with a queue of three entries, one for
each status value, and 32833575 as `S_db_Blocked`. -/
theorem ca_extra_event_labor_status_witness :
    (∃ r, ca_extra_event_labor 32833575 false 4 queuedContext = some r ∧
      r.2.trace.filterMap callbackStatus
        = queuedContext.ca_putNotifyQue.map
          (fun p => putNotifyStatus 32833575 p.dbPutNotify.status)) ∧
    putNotifyStatus 32833575 0 = CaStatus.ECA_NORMAL ∧
    putNotifyStatus 32833575 32833575 = CaStatus.ECA_PUTCBINPROG ∧
    (∀ status, status ≠ 0 → status ≠ 32833575 →
      putNotifyStatus 32833575 status = CaStatus.ECA_PUTFAIL) ∧
    (∀ status, putNotifyStatus 32833575 status = CaStatus.ECA_NORMAL ∨
      putNotifyStatus 32833575 status = CaStatus.ECA_PUTCBINPROG ∨
      putNotifyStatus 32833575 status = CaStatus.ECA_PUTFAIL) :=
  ca_extra_event_labor_status 32833575 (by decide) false queuedContext 4 (by decide)

/-! ## The registry -/

theorem importCancelLoop_spin (tid : Nat) (list : List TVIU) (i : Nat) (node : TVIU)
    (hi : list[i]? = some node) (hne : node.tid ≠ tid) :
    ∀ fuel, importCancelLoop tid list fuel (some i) = Except.error Fault.fuel := by
  intro fuel
  induction fuel with
  | zero => rfl
  | succ n ih => simp [importCancelLoop, hi, hne, ih]

/-- C2, the code at a failing input: unit 2 is attached to the Context of unit
1 by `ca_import`, so that `ca_taskVarList` holds the records of unit 1 and of
unit 2; `ca_import_cancel(2)` called by unit 2 does not return, whatever
number of passes its loop is given, because the loop never leaves the first
record. -/
theorem ca_import_cancel_spins :
    ca_import okHost 2 ownerWorld 1 = Except.ok (CaStatus.ECA_NORMAL, derivedWorld) ∧
    ∀ fuel, ca_import_cancel 2 fuel derivedWorld 2 = Except.error Fault.fuel := by
  refine ⟨rfl, ?_⟩
  intro fuel
  have h := importCancelLoop_spin 2 [{ tid := 1 }, { tid := 2 }] 0 { tid := 1 } rfl
    (by decide) fuel
  simp [ca_import_cancel, derivedWorld, taskVarGet, getContext, sampleContext, h]

/-- C10, the code at a failing input: the owning attach of unit 1 on a host
whose `taskVarAdd` fails returns ECA_INTERNAL, and the record of unit 1 that
was added to `ca_taskVarList` before stays in the list although the unit has
no task variable. -/
theorem cac_add_task_variable_leaves_record :
    ∃ w, cac_add_task_variable noTaskVarHost 1 sampleWorld 100
        = Except.ok (CaStatus.ECA_INTERNAL, w) ∧
      (getContext sampleWorld.contexts 100).map (fun c => c.ca_taskVarList) = some [] ∧
      (getContext w.contexts 100).map (fun c => c.ca_taskVarList) = some [{ tid := 1 }] ∧
      taskVarGet w.taskVars 1 = none :=
  ⟨_, rfl, by decide, by decide, by decide⟩

theorem ca_import_attached (h : Host) (self : Nat) (w0 w1 : World) (hint : Nat)
    (hok : ca_import h self w0 hint = Except.ok (CaStatus.ECA_NORMAL, w1)) :
    h.taskOptionsGet self = some true ∧ ∃ pcas, taskVarGet w1.taskVars self = some pcas := by
  unfold ca_import ca_check_for_fp at hok
  cases hfp : h.taskOptionsGet self with
  | none => simp [hfp] at hok
  | some fp =>
    cases fp with
    | false => simp [hfp] at hok
    | true =>
      refine ⟨rfl, ?_⟩
      simp only [hfp] at hok
      cases hself : taskVarGet w0.taskVars self with
      | some p =>
        simp [hself] at hok
        subst hok
        exact ⟨p, hself⟩
      | none =>
        simp only [hself] at hok
        cases hc : h.calloc <;> simp [hc] at hok
        cases hhint : taskVarGet w0.taskVars hint with
        | none => simp [hhint] at hok
        | some pcas =>
          simp only [hhint] at hok
          cases ha : h.taskVarAdd <;> simp [ha] at hok
          cases hctx : getContext w0.contexts pcas with
          | none => simp [hctx] at hok
          | some c =>
            simp [hctx] at hok
            subst hok
            exact ⟨pcas, by simp [taskVarGet]⟩

theorem ca_import_noop (h : Host) (self : Nat) (w : World)
    (hfp : h.taskOptionsGet self = some true)
    (hatt : ∃ pcas, taskVarGet w.taskVars self = some pcas) (hint : Nat) :
    ca_import h self w hint = Except.ok (CaStatus.ECA_NORMAL, w) := by
  obtain ⟨pcas, hp⟩ := hatt
  simp [ca_import, ca_check_for_fp, hfp, hp]

/-- C6: when the calling unit has the floating point option and already has a
task variable, `ca_import` returns ECA_NORMAL for every owner hint and leaves
the whole process state as it was (task variable table and every Context with
its `ca_taskVarList`); and whenever a call of `ca_import` returned ECA_NORMAL,
every further call by the same unit returns ECA_NORMAL and changes nothing. -/
theorem ca_import_idempotent (h : Host) (self : Nat) (w : World)
    (hfp : h.taskOptionsGet self = some true)
    (hatt : ∃ pcas, taskVarGet w.taskVars self = some pcas) :
    (∀ hint, ca_import h self w hint = Except.ok (CaStatus.ECA_NORMAL, w)) ∧
    (∀ w0 hint0 w1, ca_import h self w0 hint0 = Except.ok (CaStatus.ECA_NORMAL, w1) →
      ∀ hint, ca_import h self w1 hint = Except.ok (CaStatus.ECA_NORMAL, w1)) := by
  refine ⟨ca_import_noop h self w hfp hatt, ?_⟩
  intro w0 hint0 w1 hok hint
  exact ca_import_noop h self w1 hfp (ca_import_attached h self w0 w1 hint0 hok).2 hint

/-- Witness of C6: unit 2, attached to the Context of unit 1. -/
theorem ca_import_idempotent_witness :
    (∀ hint, ca_import okHost 2 derivedWorld hint
      = Except.ok (CaStatus.ECA_NORMAL, derivedWorld)) ∧
    (∀ w0 hint0 w1, ca_import okHost 2 w0 hint0 = Except.ok (CaStatus.ECA_NORMAL, w1) →
      ∀ hint, ca_import okHost 2 w1 hint = Except.ok (CaStatus.ECA_NORMAL, w1)) :=
  ca_import_idempotent okHost 2 derivedWorld rfl ⟨100, by decide⟩

/-! ## Teardown -/

theorem cancelEventq_ok (h : Host) (q : List Nat)
    (hq : ∀ m ∈ q, h.db_cancel_event m = true) :
    cancelEventq h q = Except.ok (q.map Event.db_cancel_event) := by
  induction q with
  | nil => rfl
  | cons m rest ih =>
    have hm : h.db_cancel_event m = true := hq m (List.mem_cons_self _ _)
    have hr := ih (fun x hx => hq x (List.mem_cons_of_mem _ hx))
    simp [cancelEventq, hm, hr]

theorem cancelChannels_ok (h : Host) (l : List channel_in_use)
    (hl : ∀ chix ∈ l, ∀ m ∈ chix.eventq, h.db_cancel_event m = true) :
    cancelChannels h l = Except.ok
      (l.flatMap (fun chix => chix.eventq.map Event.db_cancel_event ++ cancelPutNotify chix)) := by
  induction l with
  | nil => rfl
  | cons chix rest ih =>
    have hq := cancelEventq_ok h chix.eventq (hl chix (List.mem_cons_self _ _))
    have hr := ih (fun c hc => hl c (List.mem_cons_of_mem _ hc))
    simp [cancelChannels, hq, hr]

theorem channel_cancelledEvent (l : List channel_in_use) :
    (l.flatMap (fun chix => chix.eventq.map Event.db_cancel_event ++ cancelPutNotify chix)).filterMap
      cancelledEvent = l.flatMap (fun chix => chix.eventq) := by
  induction l with
  | nil => rfl
  | cons chix rest ih =>
    simp only [List.flatMap_cons, List.filterMap_append, ih]
    have h1 : (chix.eventq.map Event.db_cancel_event).filterMap cancelledEvent = chix.eventq := by
      induction chix.eventq with
      | nil => rfl
      | cons m r ihr => simp [cancelledEvent] at ihr ⊢; exact ihr
    have h2 : (cancelPutNotify chix).filterMap cancelledEvent = [] := by
      unfold cancelPutNotify
      cases chix.ppn with
      | none => rfl
      | some ppn => cases ppn.busy <;> simp [cancelledEvent]
    rw [h1, h2]; simp

theorem channel_cancelledPut (l : List channel_in_use) :
    (l.flatMap (fun chix => chix.eventq.map Event.db_cancel_event ++ cancelPutNotify chix)).filterMap
      cancelledPut = l.filterMap busyPut := by
  induction l with
  | nil => rfl
  | cons chix rest ih =>
    simp only [List.flatMap_cons, List.filterMap_append, ih]
    have h1 : (chix.eventq.map Event.db_cancel_event).filterMap cancelledPut = [] := by
      induction chix.eventq with
      | nil => rfl
      | cons m r _ => simp [cancelledPut]
    rw [h1]
    unfold cancelPutNotify busyPut
    cases hp : chix.ppn with
    | none => simp [List.filterMap_cons, busyPut, hp]
    | some ppn => cases hb : ppn.busy <;> simp [List.filterMap_cons, busyPut, hp, hb, cancelledPut]

theorem channel_kind (l : List channel_in_use) :
    ∀ e ∈ l.flatMap (fun chix => chix.eventq.map Event.db_cancel_event ++ cancelPutNotify chix),
      effectKind e = EffectKind.cancel := by
  intro e he
  simp only [List.mem_flatMap, List.mem_append, List.mem_map] at he
  obtain ⟨chix, _, he⟩ := he
  rcases he with ⟨m, _, rfl⟩ | he
  · rfl
  · unfold cancelPutNotify at he
    cases hp : chix.ppn with
    | none => simp [hp] at he
    | some ppn =>
      cases hb : ppn.busy <;> simp [hp, hb] at he
      subst he; rfl

theorem cancelTaskVars_deleted (l : List TVIU) :
    ∀ tv, (cancelTaskVars tv l).2.filterMap deletedTaskVar = l.map (fun p => p.tid) := by
  induction l with
  | nil => intro tv; rfl
  | cons p rest ih =>
    intro tv
    unfold cancelTaskVars
    cases hd : taskVarDelete tv p.tid with
    | none => simp [deletedTaskVar, ih]
    | some tv1 => simp [deletedTaskVar, ih]

theorem cancelTaskVars_kind (l : List TVIU) :
    ∀ tv, ∀ e ∈ (cancelTaskVars tv l).2,
      effectKind e = EffectKind.unregister ∨ effectKind e = EffectKind.other := by
  induction l with
  | nil => intro tv e he; simp [cancelTaskVars] at he
  | cons p rest ih =>
    intro tv e he
    unfold cancelTaskVars at he
    cases hd : taskVarDelete tv p.tid with
    | none =>
      simp [hd] at he
      rcases he with rfl | rfl | he
      · exact Or.inl rfl
      · exact Or.inr rfl
      · exact ih tv e he
    | some tv1 =>
      simp [hd] at he
      rcases he with rfl | he
      · exact Or.inl rfl
      · exact ih tv1 e he

theorem taskVarGet_of_not_mem (tv : List (Nat × Nat)) (t : Nat)
    (h : t ∉ tv.map Prod.fst) : taskVarGet tv t = none := by
  induction tv with
  | nil => rfl
  | cons p rest ih =>
    obtain ⟨a, v⟩ := p
    simp only [List.map_cons, List.mem_cons, not_or] at h
    have hne : ¬ a = t := fun e => h.1 e.symm
    simp [taskVarGet, hne, ih h.2]

theorem taskVarDelete_keeps_none (s t : Nat) :
    ∀ tv tv1 : List (Nat × Nat), taskVarDelete tv t = some tv1 → taskVarGet tv s = none →
      taskVarGet tv1 s = none := by
  intro tv
  induction tv with
  | nil => intro tv1 h; simp [taskVarDelete] at h
  | cons p rest ih =>
    obtain ⟨a, v⟩ := p
    intro tv1 hdel hget
    by_cases has : a = s
    · simp [taskVarGet, has] at hget
    · simp only [taskVarGet, if_neg has] at hget
      by_cases hat : a = t
      · simp only [taskVarDelete, if_pos hat, Option.some.injEq] at hdel
        subst hdel
        exact hget
      · simp only [taskVarDelete, if_neg hat] at hdel
        cases hr : taskVarDelete rest t with
        | none => simp [hr] at hdel
        | some r1 =>
          simp only [hr, Option.some.injEq] at hdel
          subst hdel
          simp [taskVarGet, has, ih r1 hr hget]

theorem taskVarDelete_none (t : Nat) :
    ∀ tv : List (Nat × Nat), taskVarDelete tv t = none → taskVarGet tv t = none := by
  intro tv
  induction tv with
  | nil => intro _; rfl
  | cons p rest ih =>
    obtain ⟨a, v⟩ := p
    intro hdel
    by_cases hat : a = t
    · simp [taskVarDelete, hat] at hdel
    · simp only [taskVarDelete, if_neg hat] at hdel
      cases hr : taskVarDelete rest t with
      | none => simp [taskVarGet, hat, ih hr]
      | some r1 => simp [hr] at hdel

theorem taskVarDelete_keys (t : Nat) :
    ∀ tv tv1 : List (Nat × Nat), taskVarDelete tv t = some tv1 →
      List.Sublist (tv1.map Prod.fst) (tv.map Prod.fst) := by
  intro tv
  induction tv with
  | nil => intro tv1 h; simp [taskVarDelete] at h
  | cons p rest ih =>
    obtain ⟨a, v⟩ := p
    intro tv1 hdel
    by_cases hat : a = t
    · simp only [taskVarDelete, if_pos hat, Option.some.injEq] at hdel
      subst hdel
      exact List.sublist_cons_self _ _
    · simp only [taskVarDelete, if_neg hat] at hdel
      cases hr : taskVarDelete rest t with
      | none => simp [hr] at hdel
      | some r1 =>
        simp only [hr, Option.some.injEq] at hdel
        subst hdel
        exact (ih r1 hr).cons₂ a

theorem taskVarDelete_removes (t : Nat) :
    ∀ tv tv1 : List (Nat × Nat), (tv.map Prod.fst).Nodup → taskVarDelete tv t = some tv1 →
      taskVarGet tv1 t = none := by
  intro tv
  induction tv with
  | nil => intro tv1 _ h; simp [taskVarDelete] at h
  | cons p rest ih =>
    obtain ⟨a, v⟩ := p
    intro tv1 hnd hdel
    simp only [List.map_cons, List.nodup_cons] at hnd
    by_cases hat : a = t
    · simp only [taskVarDelete, if_pos hat, Option.some.injEq] at hdel
      subst hdel
      exact taskVarGet_of_not_mem rest t (hat ▸ hnd.1)
    · simp only [taskVarDelete, if_neg hat] at hdel
      cases hr : taskVarDelete rest t with
      | none => simp [hr] at hdel
      | some r1 =>
        simp only [hr, Option.some.injEq] at hdel
        subst hdel
        simp [taskVarGet, hat, ih r1 hnd.2 hr]

theorem cancelTaskVars_keeps_none (s : Nat) (l : List TVIU) :
    ∀ tv, taskVarGet tv s = none → taskVarGet (cancelTaskVars tv l).1 s = none := by
  induction l with
  | nil => intro tv h; exact h
  | cons p rest ih =>
    intro tv h
    unfold cancelTaskVars
    cases hd : taskVarDelete tv p.tid with
    | none => exact ih tv h
    | some tv1 => exact ih tv1 (taskVarDelete_keeps_none s p.tid tv tv1 hd h)

theorem cancelTaskVars_unregisters (l : List TVIU) :
    ∀ tv, (tv.map Prod.fst).Nodup →
      ∀ p ∈ l, taskVarGet (cancelTaskVars tv l).1 p.tid = none := by
  induction l with
  | nil => intro tv _ p hp; simp at hp
  | cons q rest ih =>
    intro tv hnd p hp
    unfold cancelTaskVars
    cases hd : taskVarDelete tv q.tid with
    | none =>
      rcases List.mem_cons.1 hp with rfl | hp
      · exact cancelTaskVars_keeps_none _ rest tv (taskVarDelete_none _ tv hd)
      · exact ih tv hnd p hp
    | some tv1 =>
      have hnd1 : (tv1.map Prod.fst).Nodup := (taskVarDelete_keys q.tid tv tv1 hd).nodup hnd
      rcases List.mem_cons.1 hp with rfl | hp
      · exact cancelTaskVars_keeps_none _ rest tv1 (taskVarDelete_removes _ tv tv1 hnd hd)
      · exact ih tv1 hnd1 p hp

theorem cac_os_depen_exit_eq (h : Host) (tv : List (Nat × Nat)) (pcas : ca_static) (tid : Nat)
    (hc : ∀ chix ∈ pcas.ca_local_chidlist, ∀ m ∈ chix.eventq, h.db_cancel_event m = true)
    (hcl : h.db_close_events pcas.ca_evuser = true) :
    cac_os_depen_exit h tv pcas tid = Except.ok
      ((cancelTaskVars tv pcas.ca_taskVarList).1,
        { pcas with
          ca_taskVarList := []
          ca_lcl_buff_list := []
          ca_local_chidlist := []
          ca_dbfree_ev_list := [] },
        (if h.taskIdVerify pcas.recv_tid then
            Event.taskwdRemove pcas.recv_tid ::
              (if pcas.recv_tid ≠ tid then [Event.taskSuspend pcas.recv_tid] else [])
          else []) ++
          pcas.ca_local_chidlist.flatMap
            (fun chix => chix.eventq.map Event.db_cancel_event ++ cancelPutNotify chix) ++
          (cancelTaskVars tv pcas.ca_taskVarList).2 ++
          (if h.taskIdVerify pcas.recv_tid then
            (if pcas.recv_tid ≠ tid then [Event.taskDelete pcas.recv_tid] else [])
          else []) ++
          [Event.db_close_events pcas.ca_evuser]) := by
  simp only [cac_os_depen_exit, cancelChannels_ok h _ hc, hcl, if_true]

/-- C7: when the host reports OK for the `db_cancel_event` of every queued
subscription and for `db_close_events` (the code asserts both),
`cac_os_depen_exit` returns, and its trace is four segments followed by the
single `db_close_events`: stopping the receive task, the cancellations, the
unregistrations, deleting the receive task.  The cancellation segment holds
only cancellations: `db_cancel_event` once for every queued subscription of
every local channel, in list order, and `dbNotifyCancel` for every busy
pending put.  The unregistration segment, which comes after it, holds one
`taskVarDelete` for every record of `ca_taskVarList`, in list order, and no
cancellation.  The two receive task segments hold neither a cancellation nor
a `taskVarDelete` nor a close.  Afterwards `ca_taskVarList` is empty, and when
no unit had two task variables, no unit of the list has one any more. -/
theorem cac_os_depen_exit_order (h : Host) (tv : List (Nat × Nat)) (pcas : ca_static)
    (tid : Nat)
    (hc : ∀ chix ∈ pcas.ca_local_chidlist, ∀ m ∈ chix.eventq, h.db_cancel_event m = true)
    (hcl : h.db_close_events pcas.ca_evuser = true) :
    ∃ tv1 pcas1 stop cancels unreg del,
      cac_os_depen_exit h tv pcas tid = Except.ok (tv1, pcas1,
        stop ++ cancels ++ unreg ++ del ++ [Event.db_close_events pcas.ca_evuser]) ∧
      cancels.filterMap cancelledEvent
        = pcas.ca_local_chidlist.flatMap (fun chix => chix.eventq) ∧
      cancels.filterMap cancelledPut = pcas.ca_local_chidlist.filterMap busyPut ∧
      (∀ e ∈ cancels, effectKind e = EffectKind.cancel) ∧
      unreg.filterMap deletedTaskVar = pcas.ca_taskVarList.map (fun p => p.tid) ∧
      (∀ e ∈ unreg, effectKind e = EffectKind.unregister ∨ effectKind e = EffectKind.other) ∧
      (∀ e ∈ stop ++ del, effectKind e = EffectKind.other) ∧
      pcas1.ca_taskVarList = [] ∧
      ((tv.map Prod.fst).Nodup → ∀ p ∈ pcas.ca_taskVarList, taskVarGet tv1 p.tid = none) := by
  refine ⟨_, _, _, _, _, _, cac_os_depen_exit_eq h tv pcas tid hc hcl,
    channel_cancelledEvent _, channel_cancelledPut _, channel_kind _,
    cancelTaskVars_deleted _ _, cancelTaskVars_kind _ _, ?_, rfl,
    fun hnd => cancelTaskVars_unregisters _ tv hnd⟩
  intro e he
  cases hv : h.taskIdVerify pcas.recv_tid <;> simp only [hv] at he
  · simp at he
  · by_cases hr : pcas.recv_tid = tid
    · simp [hr] at he
      subst he; rfl
    · simp [hr] at he
      rcases he with rfl | rfl | rfl <;> rfl

/-- Witness of C7: the sample Context with the records of units 1 and 2 in
`ca_taskVarList`, torn down for unit 1. -/
theorem cac_os_depen_exit_order_witness :
    ∃ tv1 pcas1 stop cancels unreg del,
      cac_os_depen_exit okHost [(2, 100), (1, 100)]
          { sampleContext with ca_taskVarList := [{ tid := 1 }, { tid := 2 }] } 1
        = Except.ok (tv1, pcas1,
          stop ++ cancels ++ unreg ++ del ++ [Event.db_close_events 50]) ∧
      cancels.filterMap cancelledEvent = [71, 72] ∧
      cancels.filterMap cancelledPut
        = [{ usrPvt := 5, dbrType := 6, nRequest := 1, status := 0 }] ∧
      (∀ e ∈ cancels, effectKind e = EffectKind.cancel) ∧
      unreg.filterMap deletedTaskVar = [1, 2] ∧
      (∀ e ∈ unreg, effectKind e = EffectKind.unregister ∨ effectKind e = EffectKind.other) ∧
      (∀ e ∈ stop ++ del, effectKind e = EffectKind.other) ∧
      pcas1.ca_taskVarList = [] ∧
      ((([(2, 100), (1, 100)] : List (Nat × Nat)).map Prod.fst).Nodup →
        ∀ p ∈ ({ sampleContext with
            ca_taskVarList := [{ tid := 1 }, { tid := 2 }] } : ca_static).ca_taskVarList,
          taskVarGet tv1 p.tid = none) :=
  cac_os_depen_exit_order okHost [(2, 100), (1, 100)]
    { sampleContext with ca_taskVarList := [{ tid := 1 }, { tid := 2 }] } 1
    (fun _ _ _ _ => rfl) rfl

theorem deleteSems_ok (h : Host) (hs : ∀ s, h.semDelete s = true) (l : List Nat) :
    deleteSems h l = Except.ok (l.map Event.semDelete) := by
  induction l with
  | nil => rfl
  | cons s rest ih => simp [deleteSems, hs s, ih]

/-- C3 as the code has it: the hook `ca_task_exit_tcb` does nothing for a
terminating unit without a task variable; for a unit whose task variable
points to a Context it tears that Context down, whoever owns it (`ca_tid` is
not looked at): on a host that reports OK for the asserted primitives it runs
`cac_os_depen_exit` on the Context, which empties its lists and, when no unit
had two task variables, leaves no unit of `ca_taskVarList` with a task
variable, then `ca_process_exit`, then deletes the five semaphores. -/
theorem ca_task_exit_tcb_teardown (h : Host) (w : World) (ptcb : Nat)
    (hc : ∀ m, h.db_cancel_event m = true) (hcl : ∀ e, h.db_close_events e = true)
    (hs : ∀ s, h.semDelete s = true) :
    (taskVarGet w.taskVars ptcb = none → ca_task_exit_tcb h w ptcb = Except.ok (w, [])) ∧
    (∀ ca_temp pcas, taskVarGet w.taskVars ptcb = some ca_temp →
      getContext w.contexts ca_temp = some pcas →
      ∃ tv pcas1 tr,
        cac_os_depen_exit h w.taskVars pcas ptcb = Except.ok (tv, pcas1, tr) ∧
        pcas1.ca_taskVarList = [] ∧ pcas1.ca_local_chidlist = [] ∧
        ((w.taskVars.map Prod.fst).Nodup →
          ∀ p ∈ pcas.ca_taskVarList, taskVarGet tv p.tid = none) ∧
        ca_task_exit_tcb h w ptcb = Except.ok
          ({ w with taskVars := tv, contexts := setContext w.contexts ca_temp pcas1 },
            tr ++ [Event.ca_process_exit ca_temp, Event.semDelete pcas.ca_client_lock,
              Event.semDelete pcas.ca_event_lock, Event.semDelete pcas.ca_putNotifyLock,
              Event.semDelete pcas.ca_io_done_sem, Event.semDelete pcas.ca_blockSem])) := by
  constructor
  · intro hnone
    simp [ca_task_exit_tcb, hnone]
  · intro ca_temp pcas hget hctx
    have hexit := cac_os_depen_exit_eq h w.taskVars pcas ptcb (fun _ _ m _ => hc m)
      (hcl pcas.ca_evuser)
    refine ⟨_, _, _, hexit, rfl, rfl,
      fun hnd => cancelTaskVars_unregisters _ w.taskVars hnd, ?_⟩
    simp [ca_task_exit_tcb, hget, hctx, hexit, deleteSems_ok h hs]

/-- Witness of C3 as the code has it: the terminating unit is the derived
unit 2 of the sample process. -/
theorem ca_task_exit_tcb_teardown_witness :
    (taskVarGet derivedWorld.taskVars 2 = none →
      ca_task_exit_tcb okHost derivedWorld 2 = Except.ok (derivedWorld, [])) ∧
    (∀ ca_temp pcas, taskVarGet derivedWorld.taskVars 2 = some ca_temp →
      getContext derivedWorld.contexts ca_temp = some pcas →
      ∃ tv pcas1 tr,
        cac_os_depen_exit okHost derivedWorld.taskVars pcas 2 = Except.ok (tv, pcas1, tr) ∧
        pcas1.ca_taskVarList = [] ∧ pcas1.ca_local_chidlist = [] ∧
        ((derivedWorld.taskVars.map Prod.fst).Nodup →
          ∀ p ∈ pcas.ca_taskVarList, taskVarGet tv p.tid = none) ∧
        ca_task_exit_tcb okHost derivedWorld 2 = Except.ok
          ({ derivedWorld with
              taskVars := tv, contexts := setContext derivedWorld.contexts ca_temp pcas1 },
            tr ++ [Event.ca_process_exit ca_temp, Event.semDelete pcas.ca_client_lock,
              Event.semDelete pcas.ca_event_lock, Event.semDelete pcas.ca_putNotifyLock,
              Event.semDelete pcas.ca_io_done_sem, Event.semDelete pcas.ca_blockSem])) :=
  ca_task_exit_tcb_teardown okHost derivedWorld 2 (fun _ => rfl) (fun _ => rfl) (fun _ => rfl)

/-- C3, counterexample: unit 1 owns the sample Context (`ca_tid` is 1) and
unit 2 is attached to it by `ca_import`; when unit 2 terminates, the hook
tears the Context of unit 1 down: it cancels its subscriptions and its busy
put, deletes the task variables of both units, closes the event facility,
runs `ca_process_exit` and deletes the five semaphores. -/
theorem ca_task_exit_tcb_derived_tears_down :
    ca_import okHost 2 ownerWorld 1 = Except.ok (CaStatus.ECA_NORMAL, derivedWorld) ∧
    (getContext derivedWorld.contexts 100).map (fun c => c.ca_tid) = some 1 ∧
    ca_task_exit_tcb okHost derivedWorld 2 = Except.ok (tornDownWorld,
      [Event.taskwdRemove 9, Event.taskSuspend 9,
        Event.db_cancel_event 71, Event.db_cancel_event 72,
        Event.dbNotifyCancel { usrPvt := 5, dbrType := 6, nRequest := 1, status := 0 },
        Event.taskVarDelete 1, Event.taskVarDelete 2,
        Event.taskDelete 9, Event.db_close_events 50,
        Event.ca_process_exit 100,
        Event.semDelete 11, Event.semDelete 12, Event.semDelete 13,
        Event.semDelete 14, Event.semDelete 15]) :=
  ⟨rfl, by decide, rfl⟩

/-! ## Blocking for completion -/

theorem cac_mux_io_eq (counts : List Int) (hc : ∃ c ∈ counts, c ≤ 0) :
    ∀ t, cac_mux_io t counts = some
      (Event.cac_select_io t SelectFlags.CA_DO_SENDS :: List.replicate (busyPolls counts) zeroPoll,
        counts.drop (busyPolls counts + 1)) := by
  induction counts with
  | nil => simp at hc
  | cons c rest ih =>
    intro t
    by_cases hpos : 0 < c
    · have hrest : ∃ x ∈ rest, x ≤ 0 := by
        obtain ⟨x, hx, hx0⟩ := hc
        rcases List.mem_cons.1 hx with rfl | hx
        · omega
        · exact ⟨x, hx, hx0⟩
      simp [cac_mux_io, hpos, ih hrest, busyPolls, List.takeWhile_cons, List.replicate_succ,
        zeroPoll]
    · simp [cac_mux_io, hpos, busyPolls, List.takeWhile_cons]

theorem toULong_of_nonneg (w : Nat) (x : Int) (h0 : 0 ≤ x) (h1 : x < ((2 ^ w : Nat) : Int)) :
    toULong w x = x.toNat := by
  unfold toULong
  rw [Int.emod_eq_of_lt h0 h1]

theorem LONG_MAX_lt (w : Nat) : LONG_MAX w < 2 ^ w := by
  unfold LONG_MAX
  have h1 : 2 ^ (w - 1) ≤ 2 ^ w := Nat.pow_le_pow_right (by decide) (Nat.sub_le w 1)
  have h2 : 0 < 2 ^ (w - 1) := Nat.pow_pos (by decide)
  omega

theorem toULong_of_long (w : Nat) (x : Int) (h0 : 0 ≤ x) (h1 : x ≤ LONG_MAX w) :
    toULong w x = x.toNat := by
  apply toULong_of_nonneg w x h0
  have := LONG_MAX_lt w
  omega

/-- C8 as the code has it: for a caller timeout with non-negative fields and
poll counts of which one is not above 0, `cac_block_for_io_completion` and
`cac_block_for_sg_completion` return and have the same trace up to the
semaphore: polls for sends with a zero timeout, one more than the number of
leading counts above 0, then one `semTake` for `ticks`.  `ticks` is never
above LOCALTICKS and is 0 for a zero timeout; it is
`min(LOCALTICKS, sec*rate + floor(usec*rate/1000000))` when the fields are
values of a `long` and `usec*rate` and the sum fit an `unsigned long`. -/
theorem block_for_completion (w rate L sem : Nat) (pcasg : CASG) (pTV : timeval)
    (counts : List Int) (hsec : 0 ≤ pTV.tv_sec) (husec : 0 ≤ pTV.tv_usec)
    (hcounts : ∃ c ∈ counts, c ≤ 0) :
    ∃ ticks : Nat,
      cac_block_for_io_completion w rate L sem pTV counts = some
        (List.replicate (busyPolls counts + 1) zeroPoll ++ [Event.semTake sem ticks],
          counts.drop (busyPolls counts + 1)) ∧
      cac_block_for_sg_completion w rate L pcasg pTV counts = some
        (List.replicate (busyPolls counts + 1) zeroPoll ++ [Event.semTake pcasg.sem ticks],
          counts.drop (busyPolls counts + 1)) ∧
      ticks ≤ L ∧
      (pTV.tv_sec = 0 → pTV.tv_usec = 0 → ticks = 0) ∧
      (pTV.tv_sec ≤ LONG_MAX w → pTV.tv_usec ≤ LONG_MAX w →
        pTV.tv_usec.toNat * rate < 2 ^ w →
        pTV.tv_sec.toNat * rate + pTV.tv_usec.toNat * rate / 1000000 < 2 ^ w →
        ticks = specWaitTicks rate L pTV.tv_sec.toNat pTV.tv_usec.toNat) := by
  have hmux := cac_mux_io_eq counts hcounts { tv_sec := 0, tv_usec := 0 }
  refine ⟨(if L < ((toULong w pTV.tv_sec * rate) % 2 ^ w
        + ((toULong w pTV.tv_usec * rate) % 2 ^ w) / USEC_PER_SEC) % 2 ^ w then L
      else ((toULong w pTV.tv_sec * rate) % 2 ^ w
        + ((toULong w pTV.tv_usec * rate) % 2 ^ w) / USEC_PER_SEC) % 2 ^ w), ?_, ?_, ?_, ?_, ?_⟩
  · simp only [cac_block_for_io_completion, hmux]
    rfl
  · simp only [cac_block_for_sg_completion, hmux]
    rfl
  · split_ifs with hlt
    · exact Nat.le_refl L
    · exact Nat.le_of_not_lt hlt
  · intro h1 h2
    simp [h1, h2, toULong]
  · intro hs hu hfit1 hfit2
    rw [toULong_of_long w _ hsec hs, toULong_of_long w _ husec hu]
    have hfit0 : pTV.tv_sec.toNat * rate < 2 ^ w := by omega
    rw [Nat.mod_eq_of_lt hfit0, Nat.mod_eq_of_lt hfit1]
    have hfit3 : pTV.tv_sec.toNat * rate + pTV.tv_usec.toNat * rate / USEC_PER_SEC < 2 ^ w :=
      hfit2
    rw [Nat.mod_eq_of_lt hfit3]
    unfold specWaitTicks USEC_PER_SEC
    split_ifs with hlt
    · exact (Nat.min_eq_left (Nat.le_of_lt hlt)).symm
    · exact (Nat.min_eq_right (Nat.le_of_not_lt hlt)).symm

/-- Witness of C8 as the code has it: 1.5 s at 60 ticks per second with
LOCALTICKS 100, after two polls that report progress. -/
theorem block_for_completion_witness :
    ∃ ticks : Nat,
      cac_block_for_io_completion 32 60 100 14 { tv_sec := 1, tv_usec := 500000 } [2, 1, 0, 5]
        = some (List.replicate (busyPolls [2, 1, 0, 5] + 1) zeroPoll ++ [Event.semTake 14 ticks],
          [2, 1, 0, 5].drop (busyPolls [2, 1, 0, 5] + 1)) ∧
      cac_block_for_sg_completion 32 60 100 { sem := 21 } { tv_sec := 1, tv_usec := 500000 }
          [2, 1, 0, 5]
        = some (List.replicate (busyPolls [2, 1, 0, 5] + 1) zeroPoll ++ [Event.semTake 21 ticks],
          [2, 1, 0, 5].drop (busyPolls [2, 1, 0, 5] + 1)) ∧
      ticks ≤ 100 ∧
      ((1 : Int) = 0 → (500000 : Int) = 0 → ticks = 0) ∧
      ((1 : Int) ≤ LONG_MAX 32 → (500000 : Int) ≤ LONG_MAX 32 →
        (500000 : Int).toNat * 60 < 2 ^ 32 →
        (1 : Int).toNat * 60 + (500000 : Int).toNat * 60 / 1000000 < 2 ^ 32 →
        ticks = specWaitTicks 60 100 (1 : Int).toNat (500000 : Int).toNat) :=
  block_for_completion 32 60 100 14 { sem := 21 } { tv_sec := 1, tv_usec := 500000 }
    [2, 1, 0, 5] (by decide) (by decide) ⟨0, by decide, by decide⟩

/-- C8, counterexample: with 60 ticks per second a timeout of 2^30 s on a
target with 32 bit `unsigned long` (and of 2^62 s with 64 bit) makes
`sec*rate` wrap to 0, so the wait is 0 ticks, where
`min(LOCALTICKS, sec*rate + floor(usec*rate/1000000))` is LOCALTICKS, here
taken as 1 and as 1000. -/
theorem block_for_completion_wraps :
    (cac_block_for_io_completion 32 60 1 14 { tv_sec := 1073741824, tv_usec := 0 } [0]
        = some ([zeroPoll, Event.semTake 14 0], []) ∧
      specWaitTicks 60 1 1073741824 0 = 1) ∧
    (cac_block_for_sg_completion 32 60 1000 { sem := 21 }
        { tv_sec := 1073741824, tv_usec := 0 } [0]
        = some ([zeroPoll, Event.semTake 21 0], []) ∧
      specWaitTicks 60 1000 1073741824 0 = 1000) ∧
    (cac_block_for_io_completion 64 60 1 14 { tv_sec := 4611686018427387904, tv_usec := 0 } [0]
        = some ([zeroPoll, Event.semTake 14 0], []) ∧
      specWaitTicks 60 1 4611686018427387904 0 = 1) := by
  refine ⟨⟨?_, ?_⟩, ⟨?_, ?_⟩, ⟨?_, ?_⟩⟩ <;> decide

/-! ## The clock -/

theorem toLong_of_le (w x : Nat) (h : x ≤ LONG_MAX w) : toLong w x = (x : Int) := by
  have hlt : x < 2 ^ w := Nat.lt_of_le_of_lt h (LONG_MAX_lt w)
  unfold toLong
  rw [Nat.mod_eq_of_lt hlt, if_pos h]

theorem unsigned_sub (N c q : Nat) (hq : q ≤ c) (hc : c < N) :
    (c + (N - q % N)) % N = c - q := by
  have hqN : q < N := Nat.lt_of_le_of_lt hq hc
  rw [Nat.mod_eq_of_lt hqN]
  have h1 : c + (N - q) = (c - q) + N := by omega
  rw [h1, Nat.add_mod_right, Nat.mod_eq_of_lt (by omega)]

/-- The call of `cac_gettimeval` on ready statics, before any assumption on
overflow: it returns, with these statics and this time value. -/
theorem cac_gettimeval_ready (w rate c : Nat) (st : ClockStatics) (hrate : 0 < rate)
    (hrateR : rate < 2 ^ w) (hc : c < 2 ^ w) (hst : ClockReady w rate st) :
    cac_gettimeval w rate c st = some
      ({ rate := rate, last := c
         offset := if c < st.last then (st.offset + ULONG_MAX w / rate) % 2 ^ w else st.offset
         sem := some true },
       { tv_sec := toLong w ((c / rate +
           (if c < st.last then (st.offset + ULONG_MAX w / rate) % 2 ^ w else st.offset))
             % 2 ^ w)
         tv_usec := toLong w (((c % rate * USEC_PER_SEC) % 2 ^ w) / rate) }) := by
  have hsub : (c + (2 ^ w - (c / rate * rate) % 2 ^ w)) % 2 ^ w = c % rate := by
    rw [unsigned_sub (2 ^ w) c (c / rate * rate) (Nat.div_mul_le_self c rate) hc]
    have := Nat.mod_add_div c rate
    have hcomm : c / rate * rate = rate * (c / rate) := Nat.mul_comm _ _
    omega
  have hne : rate ≠ 0 := Nat.pos_iff_ne_zero.1 hrate
  rcases hst.2 with h0 | ⟨hr, hs⟩
  · simp only [cac_gettimeval, h0, if_true, Nat.mod_eq_of_lt hrateR, if_neg hne,
      Nat.mod_eq_of_lt hc, hsub]
  · simp only [cac_gettimeval, hr, if_neg hne, hs, Nat.mod_eq_of_lt hc, hsub]

/-- The call of `cac_gettimeval` on ready statics when the exact seconds fit a
`long`: the statics and the seconds are the exact ones, and so are the
microseconds when `(rate - 1) * USEC_PER_SEC` fits an `unsigned long`. -/
theorem cac_gettimeval_exact (w rate c : Nat) (st : ClockStatics) (hrate : 0 < rate)
    (hrateR : rate < 2 ^ w) (hc : c < 2 ^ w) (hst : ClockReady w rate st)
    (hfit : c / rate + (if c < st.last then st.offset + ULONG_MAX w / rate else st.offset)
      ≤ LONG_MAX w) :
    ∃ st1 tv, cac_gettimeval w rate c st = some (st1, tv) ∧
      ClockReady w rate st1 ∧ st1.last = c ∧
      st1.offset = (if c < st.last then st.offset + ULONG_MAX w / rate else st.offset) ∧
      tv.tv_sec = ((st1.last / rate + st1.offset : Nat) : Int) ∧
      ((rate - 1) * USEC_PER_SEC < 2 ^ w → tv = lastTime rate st1) := by
  have hmax := LONG_MAX_lt w
  have hoff : (if c < st.last then (st.offset + ULONG_MAX w / rate) % 2 ^ w else st.offset)
      = (if c < st.last then st.offset + ULONG_MAX w / rate else st.offset) := by
    by_cases hw : c < st.last
    · simp only [if_pos hw] at hfit ⊢
      exact Nat.mod_eq_of_lt
        (Nat.lt_of_le_of_lt (Nat.le_trans (Nat.le_add_left _ _) hfit) hmax)
    · simp only [if_neg hw]
  have hsec : toLong w ((c / rate +
      (if c < st.last then st.offset + ULONG_MAX w / rate else st.offset)) % 2 ^ w)
      = ((c / rate +
        (if c < st.last then st.offset + ULONG_MAX w / rate else st.offset) : Nat) : Int) := by
    rw [Nat.mod_eq_of_lt (by omega), toLong_of_le w _ hfit]
  refine ⟨_, _, cac_gettimeval_ready w rate c st hrate hrateR hc hst, ⟨hc, Or.inr ⟨rfl, rfl⟩⟩,
    rfl, hoff, ?_, ?_⟩
  · simp only [hoff, hsec]
  · intro husec
    have hrem : c % rate ≤ rate - 1 := Nat.le_pred_of_lt (Nat.mod_lt c hrate)
    have hmul : c % rate * USEC_PER_SEC < 2 ^ w :=
      Nat.lt_of_le_of_lt (Nat.mul_le_mul_right _ hrem) husec
    have hlong : c % rate * USEC_PER_SEC / rate ≤ LONG_MAX w := by
      by_cases h1 : rate = 1
      · subst h1
        simp [Nat.mod_one]
      · have h2 : 2 ≤ rate := by omega
        have hw : w ≠ 0 := by
          intro hw0
          subst hw0
          simp at hrateR
          omega
        have hpow : 2 ^ w = 2 * 2 ^ (w - 1) := by
          obtain ⟨k, rfl⟩ := Nat.exists_eq_succ_of_ne_zero hw
          simp [Nat.pow_succ, Nat.mul_comm]
        have hdiv : c % rate * USEC_PER_SEC / rate ≤ c % rate * USEC_PER_SEC / 2 :=
          Nat.div_le_div_left h2 (by decide)
        unfold LONG_MAX
        omega
    simp only [lastTime, hoff, hsec, Nat.mod_eq_of_lt hmul, toLong_of_le w _ hlong]

theorem seconds_step_le (w rate c last offset : Nat) (hlast : last < 2 ^ w) :
    last / rate + offset
      ≤ c / rate + (if c < last then offset + ULONG_MAX w / rate else offset) := by
  by_cases hw : c < last
  · simp only [if_pos hw]
    have h1 : last / rate ≤ ULONG_MAX w / rate :=
      Nat.div_le_div_right (by unfold ULONG_MAX; omega)
    generalize c / rate = q
    generalize ULONG_MAX w / rate = m at h1
    generalize last / rate = l at h1
    omega
  · simp only [if_neg hw]
    exact Nat.add_le_add_right (Nat.div_le_div_right (Nat.le_of_not_lt hw)) _

theorem lastTime_le (rate : Nat) (st st1 : ClockStatics)
    (hle : st.last ≤ st1.last) (hoff : st1.offset = st.offset) :
    timevalLE (lastTime rate st) (lastTime rate st1) := by
  unfold timevalLE lastTime
  have hq : st.last / rate ≤ st1.last / rate := Nat.div_le_div_right hle
  rcases Nat.lt_or_eq_of_le hq with hlt | heq
  · left
    simp only [hoff]
    exact_mod_cast Nat.add_lt_add_right hlt _
  · right
    refine ⟨by simp only [hoff, heq], ?_⟩
    have h1 := Nat.mod_add_div st.last rate
    have h2 := Nat.mod_add_div st1.last rate
    rw [heq] at h1
    have hr : st.last % rate ≤ st1.last % rate := by
      generalize st1.last / rate = q at h1 h2
      generalize rate * q = rq at h1 h2
      omega
    show ((st.last % rate * USEC_PER_SEC / rate : Nat) : Int)
      ≤ ((st1.last % rate * USEC_PER_SEC / rate : Nat) : Int)
    exact_mod_cast Nat.div_le_div_right (Nat.mul_le_mul_right _ hr)

theorem clockRun_seconds (w rate : Nat) (hrate : 0 < rate) (hrateR : rate < 2 ^ w) :
    ∀ (rs : List Nat) (st : ClockStatics), ClockReady w rate st →
      (∀ c ∈ rs, c < 2 ^ w) → secondsFit w rate st.last st.offset rs = true →
      ∃ tvs, clockRun w rate st rs = some tvs ∧ tvs.length = rs.length ∧
        List.Chain' (fun a b : timeval => a.tv_sec ≤ b.tv_sec) tvs ∧
        ∀ tv ∈ tvs.head?, ((st.last / rate + st.offset : Nat) : Int) ≤ tv.tv_sec := by
  intro rs
  induction rs with
  | nil =>
    intro st _ _ _
    exact ⟨[], rfl, rfl, List.chain'_nil, by simp⟩
  | cons c cs ih =>
    intro st hst hrs hfit
    simp only [secondsFit, Bool.and_eq_true, decide_eq_true_eq] at hfit
    obtain ⟨st1, tv, hcall, hready, hlast, hoff, hsec, _⟩ :=
      cac_gettimeval_exact w rate c st hrate hrateR (hrs c (List.mem_cons_self _ _)) hst hfit.1
    have hfit1 : secondsFit w rate st1.last st1.offset cs = true := by
      rw [hlast, hoff]; exact hfit.2
    obtain ⟨tvs, hrun, hlen, hchain, hhead⟩ :=
      ih st1 hready (fun x hx => hrs x (List.mem_cons_of_mem _ hx)) hfit1
    refine ⟨tv :: tvs, by simp [clockRun, hcall, hrun], by simp [hlen], ?_, ?_⟩
    · rw [List.chain'_cons']
      exact ⟨fun y hy => by rw [hsec]; exact hhead y hy, hchain⟩
    · intro y hy
      simp only [List.head?_cons, Option.mem_def, Option.some.injEq] at hy
      subst hy
      rw [hsec, hlast, hoff]
      exact_mod_cast seconds_step_le w rate c st.last st.offset hst.1

theorem clockRun_ordered (w rate : Nat) (hrate : 0 < rate) (hrateR : rate < 2 ^ w)
    (husec : (rate - 1) * USEC_PER_SEC < 2 ^ w) :
    ∀ (rs : List Nat) (st : ClockStatics), ClockReady w rate st →
      (∀ c ∈ rs, c < 2 ^ w) → secondsFit w rate st.last st.offset rs = true →
      ∃ tvs, clockRun w rate st rs = some tvs ∧ tvs.length = rs.length ∧
        List.Chain' StepOrdered (rs.zip tvs) ∧
        ∀ p ∈ (rs.zip tvs).head?, StepOrdered (st.last, lastTime rate st) p := by
  intro rs
  induction rs with
  | nil =>
    intro st _ _ _
    exact ⟨[], rfl, rfl, List.chain'_nil, by simp⟩
  | cons c cs ih =>
    intro st hst hrs hfit
    simp only [secondsFit, Bool.and_eq_true, decide_eq_true_eq] at hfit
    obtain ⟨st1, tv, hcall, hready, hlast, hoff, _, htv⟩ :=
      cac_gettimeval_exact w rate c st hrate hrateR (hrs c (List.mem_cons_self _ _)) hst hfit.1
    have htv1 := htv husec
    have hfit1 : secondsFit w rate st1.last st1.offset cs = true := by
      rw [hlast, hoff]; exact hfit.2
    obtain ⟨tvs, hrun, hlen, hchain, hhead⟩ :=
      ih st1 hready (fun x hx => hrs x (List.mem_cons_of_mem _ hx)) hfit1
    refine ⟨tv :: tvs, by simp [clockRun, hcall, hrun], by simp [hlen], ?_, ?_⟩
    · rw [List.zip_cons_cons, List.chain'_cons']
      refine ⟨fun y hy => ?_, hchain⟩
      have := hhead y hy
      rw [hlast, ← htv1] at this
      exact this
    · intro p hp
      simp only [List.zip_cons_cons, List.head?_cons, Option.mem_def, Option.some.injEq] at hp
      subst hp
      refine ⟨?_, ?_⟩
      · show ((st.last / rate + st.offset : Nat) : Int) ≤ tv.tv_sec
        rw [htv1]
        show ((st.last / rate + st.offset : Nat) : Int)
          ≤ ((st1.last / rate + st1.offset : Nat) : Int)
        rw [hlast, hoff]
        exact_mod_cast seconds_step_le w rate c st.last st.offset hst.1
      · intro hle
        show timevalLE (lastTime rate st) tv
        rw [htv1]
        apply lastTime_le rate st st1
        · rw [hlast]; exact hle
        · rw [hoff, if_neg (Nat.not_lt.2 hle)]

theorem clockReady_init (w rate : Nat) : ClockReady w rate ClockStatics.init :=
  ⟨Nat.pow_pos (by decide), Or.inl rfl⟩

/-- C4: for a tick rate above 0 that is an `unsigned long`, and raw tick
readings that are `unsigned long` values in any order, the successive calls of
`cac_gettimeval` from program start all return, one time value per reading,
and the `tv_sec` of each call is at least the `tv_sec` of the call before,
provided the seconds in exact integers fit a `long` at every call. -/
theorem cac_gettimeval_seconds_monotone (w rate : Nat) (readings : List Nat)
    (hrate : 0 < rate) (hrateR : rate < 2 ^ w) (hread : ∀ c ∈ readings, c < 2 ^ w)
    (hfit : secondsFit w rate 0 0 readings = true) :
    ∃ tvs, clockRun w rate ClockStatics.init readings = some tvs ∧
      tvs.length = readings.length ∧
      List.Chain' (fun a b : timeval => a.tv_sec ≤ b.tv_sec) tvs := by
  obtain ⟨tvs, hrun, hlen, hchain, _⟩ :=
    clockRun_seconds w rate hrate hrateR readings ClockStatics.init (clockReady_init w rate)
      hread hfit
  exact ⟨tvs, hrun, hlen, hchain⟩

/-- Witness of C4: 1000 ticks per second and the readings 900, 950, 10, 60 on a
32 bit target; the third reading is below the second. -/
theorem cac_gettimeval_seconds_monotone_witness :
    ∃ tvs, clockRun 32 1000 ClockStatics.init [900, 950, 10, 60] = some tvs ∧
      tvs.length = [900, 950, 10, 60].length ∧
      List.Chain' (fun a b : timeval => a.tv_sec ≤ b.tv_sec) tvs :=
  cac_gettimeval_seconds_monotone 32 1000 [900, 950, 10, 60] (by decide) (by decide)
    (by decide) (by decide)

/-- C5 as the code has it: for a tick rate above 0 with
`(rate - 1) * USEC_PER_SEC` in the range of `unsigned long`, and raw tick
readings in any order whose exact seconds fit a `long`, the successive calls of
`cac_gettimeval` from program start all return, and for each call after the
first the `tv_sec` is at least that of the call before and, when the raw
reading is not below the one of the call before, the pair
`(tv_sec, tv_usec)` is at least the pair of the call before in lexicographic
order.  Nothing is said on `tv_usec` across a decrease of the raw counter. -/
theorem cac_gettimeval_lex_monotone (w rate : Nat) (readings : List Nat)
    (hrate : 0 < rate) (hrateR : rate < 2 ^ w) (husec : (rate - 1) * USEC_PER_SEC < 2 ^ w)
    (hread : ∀ c ∈ readings, c < 2 ^ w) (hfit : secondsFit w rate 0 0 readings = true) :
    ∃ tvs, clockRun w rate ClockStatics.init readings = some tvs ∧
      tvs.length = readings.length ∧
      List.Chain' StepOrdered (readings.zip tvs) := by
  obtain ⟨tvs, hrun, hlen, hchain, _⟩ :=
    clockRun_ordered w rate hrate hrateR husec readings ClockStatics.init
      (clockReady_init w rate) hread hfit
  exact ⟨tvs, hrun, hlen, hchain⟩

/-- Witness of C5 as the code has it: 60 ticks per second and the readings
100, 130, 130, 7, 200 on a 32 bit target. -/
theorem cac_gettimeval_lex_monotone_witness :
    ∃ tvs, clockRun 32 60 ClockStatics.init [100, 130, 130, 7, 200] = some tvs ∧
      tvs.length = [100, 130, 130, 7, 200].length ∧
      List.Chain' StepOrdered ([100, 130, 130, 7, 200].zip tvs) :=
  cac_gettimeval_lex_monotone 32 60 [100, 130, 130, 7, 200] (by decide) (by decide)
    (by decide) (by decide) (by decide)

/-- C5, counterexample: at 1000 ticks per second on a 32 bit target the raw
readings 4294967295 and then 10 (the counter wrapped) give the times
(4294967 s, 295000 us) and then (4294967 s, 10000 us), which is a step back;
and at 10000 ticks per second the readings 4294 and 4295 give
(0 s, 429400 us) and then (0 s, 3 us), because `4295 * USEC_PER_SEC` does not
fit an `unsigned long`. -/
theorem cac_gettimeval_steps_back :
    (clockRun 32 1000 ClockStatics.init [4294967295, 10]
        = some [{ tv_sec := 4294967, tv_usec := 295000 },
          { tv_sec := 4294967, tv_usec := 10000 }] ∧
      ¬ timevalLE { tv_sec := 4294967, tv_usec := 295000 }
        { tv_sec := 4294967, tv_usec := 10000 }) ∧
    (clockRun 32 10000 ClockStatics.init [4294, 4295]
        = some [{ tv_sec := 0, tv_usec := 429400 }, { tv_sec := 0, tv_usec := 3 }] ∧
      ¬ timevalLE { tv_sec := 0, tv_usec := 429400 } { tv_sec := 0, tv_usec := 3 }) := by
  refine ⟨⟨?_, ?_⟩, ⟨?_, ?_⟩⟩ <;> decide

end CA
